import Mathlib

/-!
Shallow embedding of the core of the RadiationD-v1.1 (CAJOE) Geiger counter
firmware (Geiger_CounterESP32.ino, Geiger_CounterESP32_Display.ino and the
ESP8266 variant).  Machine `unsigned long` arithmetic (32 bits on these
platforms) is modelled as natural numbers with explicit reduction modulo 2^32
at the operations that can wrap.  IEEE floating-point arithmetic in the
weighted-average filter is modelled by exact rational arithmetic; the
float-to-unsigned-long conversion (truncation toward zero of a non-negative
value) is modelled by the integer floor followed by clamping at zero.
-/

/-- Width of the platform unsigned long: values wrap modulo 2^32. -/
def UINT32_MOD : Nat := 2 ^ 32

/-- From the define LOG_PERIOD 60000 (logging period in milliseconds). -/
def LOG_PERIOD : Nat := 60000

/-- From the define MINUTE_PERIOD 60000. -/
def MINUTE_PERIOD : Nat := 60000

/-- From the define LAST_VALUES_SIZE 60 in Geiger_CounterESP32.ino. -/
def LAST_VALUES_SIZE : Nat := 60

/-- From the define LAST_VALUES_SIZE 5 in Geiger_CounterESP32_Display.ino. -/
def LAST_VALUES_SIZE_DISPLAY : Nat := 5

/-- From the define STRING_BUFFER_SIZE 50. -/
def STRING_BUFFER_SIZE : Nat := 50

/-- From the define CPM_THRESHOLD 100 in Geiger_CounterESP32.ino. -/
def CPM_THRESHOLD : Nat := 100

/-- From the define CPM_THRESHOLD 50 in Geiger_CounterESP32_Display.ino. -/
def CPM_THRESHOLD_DISPLAY : Nat := 50

/-- From the define WEIGHT_AVERAGE 0.8 in Geiger_CounterESP32_Display.ino,
modelled as the exact rational 4/5. -/
def WEIGHT_AVERAGE : ℚ := 4 / 5

/-- The rate computation of the sampling period,
cpm = counts * MINUTE_PERIOD / logPeriod, from the loop body
(Geiger_CounterESP32.ino line 182, Display line 205, ESP8266 variant line 87).
The product is computed in unsigned long, hence reduced modulo 2^32 before the
truncating division. -/
def rateCPM (counts logPeriod : Nat) : Nat :=
  counts * MINUTE_PERIOD % UINT32_MOD / logPeriod

/-- The three accesses to the shared volatile counter counts: the interrupt
handler increment (isr_impulse, counts++), the sampling loop read of counts
(the load in cpm = counts * MINUTE_PERIOD / LOG_PERIOD) and the sampling loop
reset (counts = 0).  The interrupt may fire between any two of these. -/
inductive CounterEvent
  | inc
  | readCounts
  | resetCounts
  deriving DecidableEq

/-- State of the shared counter: the current value of counts and the value the
sampler has drained (the value loaded by the read), if the read has happened. -/
structure CounterState where
  counts : Nat
  drained : Option Nat
  deriving DecidableEq

/-- One shared-memory access.  The increment wraps at the unsigned long width,
the read records the loaded value, the reset stores zero. -/
def counterStep (s : CounterState) : CounterEvent → CounterState
  | CounterEvent.inc => ⟨(s.counts + 1) % UINT32_MOD, s.drained⟩
  | CounterEvent.readCounts => ⟨s.counts, some s.counts⟩
  | CounterEvent.resetCounts => ⟨0, s.drained⟩

/-- Run a sequence of shared-memory accesses. -/
def runCounter (s : CounterState) (es : List CounterEvent) : CounterState :=
  es.foldl counterStep s

/-- The initial state: counts = 0, nothing drained. -/
def initCounter : CounterState := ⟨0, none⟩

/-- A burst of n handler increments. -/
def incs (n : Nat) : List CounterEvent := List.replicate n CounterEvent.inc

/-- A trace with one drain: n1 increments before the sampler reads counts,
n2 increments between the read and the reset (possible in every variant: the
read and the reset are separate statements, and in the display variant only
the reset is inside the critical section), and n3 increments afterwards. -/
def drainTrace (n1 n2 n3 : Nat) : List CounterEvent :=
  incs n1 ++ [CounterEvent.readCounts] ++ incs n2 ++
    [CounterEvent.resetCounts] ++ incs n3

/-- pushCPMValueToArray: shift every stored element one position toward the
tail (the loop for i = LAST_VALUES_SIZE-1 down to 1 does a[i] = a[i-1],
discarding the old last element) and write the new cpm at index 0.  On a
fixed-length list this is exactly consing the new value and dropping the last
element. -/
def pushCPMValueToArray (lastCPMValues : List Nat) (cpm : Nat) : List Nat :=
  cpm :: lastCPMValues.dropLast

/-- checkInterrupt: reattach the interrupt when cpm + lastCPMValues[0] == 0.
The sum is unsigned long arithmetic, hence taken modulo 2^32. -/
def checkInterrupt (cpm : Nat) (lastCPMValues : List Nat) : Bool :=
  (cpm + lastCPMValues.headD 0) % UINT32_MOD == 0

/-- The history/health part of one sampling period of the loop: the freshly
computed cpm is pushed to the history (line 185) before checkInterrupt is
called with the same cpm (line 192).  Returns the new history and whether a
re-arm was signalled. -/
def periodStep (hist : List Nat) (cpm : Nat) : List Nat × Bool :=
  let histNew := pushCPMValueToArray hist cpm
  (histNew, checkInterrupt cpm histNew)

/-- Run a sequence of sampling periods with the given cpm values, counting how
many of them signalled a forced re-arm. -/
def runPeriods (hist : List Nat) : List Nat → List Nat × Nat
  | [] => (hist, 0)
  | cpm :: rest =>
    let p := periodStep hist cpm
    let r := runPeriods p.1 rest
    (r.1, (if p.2 then 1 else 0) + r.2)

/-- calcAverage (Geiger_CounterESP32.ino): sum every stored value (the
accumulation is unsigned long, so it wraps modulo 2^32), count the non-zero
ones, and return 0 when the count is 0, otherwise the truncating quotient. -/
def calcAverage (lastCPMValues : List Nat) : Nat :=
  let sumValues := lastCPMValues.foldl (fun s v => (s + v) % UINT32_MOD) 0
  let countValues := (lastCPMValues.filter (fun v => decide (0 < v))).length
  if countValues = 0 then 0 else sumValues / countValues

/-- calcRunningAverage (Geiger_CounterESP32_Display.ino): identical body to
calcAverage. -/
def calcRunningAverage (lastCPMValues : List Nat) : Nat :=
  calcAverage lastCPMValues

/-- The alert dispatch decision of the sampling period: the guard
cpm > CPM_THRESHOLD (Display line 216, main variant line 191), with the
threshold as a parameter to cover the variants (100, 50, 200). -/
def alertFires (cpm threshold : Nat) : Bool :=
  decide (threshold < cpm)

/-- calcWeightedAverageFilter: result = weight * rawValue +
(1.0 - weight) * lastValue computed in floating point, returned as an
unsigned long.  Modelled over the exact rationals; the conversion of the
non-negative float result to unsigned long truncates toward zero, i.e. is the
integer floor (clamped at zero). -/
def calcWeightedAverageFilter (rawValue : Nat) (weight : ℚ) (lastValue : Nat) : Nat :=
  (Int.floor (weight * (rawValue : ℚ) + (1 - weight) * (lastValue : ℚ))).toNat

/-- readLine worker: the while loop over the remaining stream bytes, carrying
the current write index and the buffer (a function from indices to signed char
values).  A byte c with c >= 32 is stored while index < STRING_BUFFER_SIZE - 1
(stringBuffer[index++] = c); a newline with index > 0 writes the terminating
NUL and returns true; any other byte is skipped; an exhausted stream returns
false. -/
def readLineGo (buf : Nat → Int) (index : Nat) : List Int → Bool × (Nat → Int)
  | [] => (false, buf)
  | c :: rest =>
    if 32 ≤ c ∧ index < STRING_BUFFER_SIZE - 1 then
      readLineGo (Function.update buf index c) (index + 1) rest
    else if c = 10 ∧ 0 < index then
      (true, Function.update buf index 0)
    else
      readLineGo buf index rest

/-- readLine(stringBuffer, stream): start the scan at index 0. -/
def readLine (stringBuffer : Nat → Int) (stream : List Int) : Bool × (Nat → Int) :=
  readLineGo stringBuffer 0 stream

/-- handleCommands dispatches a command exactly when the stream is available
and readLine returns true (the short-circuit conjunction in
SerialBT.available() && readLine(stringBuffer, SerialBT)). -/
def handleCommandsDispatches (stringBuffer : Nat → Int) (stream : List Int) : Bool :=
  !stream.isEmpty && (readLine stringBuffer stream).1

/-- Running a burst of n increments adds n to the counter modulo 2^32 and
leaves the drained record unchanged. -/
theorem runCounter_incs (n : Nat) : ∀ (c : Nat) (d : Option Nat),
    runCounter ⟨c % UINT32_MOD, d⟩ (incs n) = ⟨(c + n) % UINT32_MOD, d⟩ := by
  induction n with
  | zero => intro c d; simp [incs, runCounter]
  | succ m ih =>
    intro c d
    simp only [incs, List.replicate_succ, runCounter, List.foldl_cons] at ih ⊢
    have h1 : counterStep ⟨c % UINT32_MOD, d⟩ CounterEvent.inc = ⟨(c + 1) % UINT32_MOD, d⟩ := by
      simp [counterStep, Nat.mod_add_mod]
    rw [h1]
    have := ih (c + 1) d
    rw [this]
    have e : c + 1 + m = c + (m + 1) := by omega
    rw [e]

/-- Running a concatenated trace is running the two halves in sequence. -/
theorem runCounter_append (s : CounterState) (l1 l2 : List CounterEvent) :
    runCounter s (l1 ++ l2) = runCounter (runCounter s l1) l2 := by
  simp [runCounter]

/-- C1, counterexample: the claim says the drained value equals the number of
handler increments strictly before the drain and the counter is 0 immediately
after, for every interleaving, the read-and-reset being an indivisible
critical section.  The source performs the read and the reset as two separate
statements (and in the display variant only the reset is inside the critical
section), so the handler may fire between them: in the interleaving
read, inc, reset there is exactly one increment, it completes strictly before
the drain finishes, yet the drained value is 0 and the counter is 0 at the
end, i.e. the increment is lost (drained + final = 0, but 1 increment
occurred), refuting exact-once. -/
theorem C1_counterexample :
    drainTrace 0 1 0 = [CounterEvent.readCounts, CounterEvent.inc, CounterEvent.resetCounts] ∧
    runCounter initCounter (drainTrace 0 1 0) = ⟨0, some 0⟩ := by decide

/-- C1, amended: for any interleaving with n1 increments before the read of
counts, n2 increments between the read and the reset, and n3 increments after
the reset (n1 and n3 below the wrap bound), the drained value equals n1 and
the counter ends at n3; the n2 increments between the read and the reset are
lost.  Exact-once therefore holds exactly for the interleavings with n2 = 0,
not for arbitrary interleavings as claimed. -/
theorem C1_drain (n1 n2 n3 : Nat) (h1 : n1 < UINT32_MOD) (h3 : n3 < UINT32_MOD) :
    runCounter initCounter (drainTrace n1 n2 n3) = ⟨n3, some n1⟩ := by
  have e0 : initCounter = (⟨0 % UINT32_MOD, none⟩ : CounterState) := by
    simp [initCounter]
  have s1 : runCounter initCounter (incs n1) = ⟨n1 % UINT32_MOD, none⟩ := by
    rw [e0, runCounter_incs, Nat.zero_add]
  have s1v : runCounter initCounter (incs n1) = ⟨n1, none⟩ := by
    rw [s1]; congr 1; exact Nat.mod_eq_of_lt h1
  have s2 : runCounter (⟨n1, none⟩ : CounterState) [CounterEvent.readCounts] = ⟨n1, some n1⟩ := by
    simp [runCounter, counterStep]
  have s3 : runCounter (⟨n1, some n1⟩ : CounterState) (incs n2) =
      ⟨(n1 + n2) % UINT32_MOD, some n1⟩ := by
    have e : (⟨n1, some n1⟩ : CounterState) = ⟨n1 % UINT32_MOD, some n1⟩ := by
      congr 1; exact (Nat.mod_eq_of_lt h1).symm
    rw [e, runCounter_incs]
  have s4 : runCounter (⟨(n1 + n2) % UINT32_MOD, some n1⟩ : CounterState)
      [CounterEvent.resetCounts] = ⟨0, some n1⟩ := by
    simp [runCounter, counterStep]
  have s5 : runCounter (⟨0, some n1⟩ : CounterState) (incs n3) = ⟨n3, some n1⟩ := by
    have e : (⟨0, some n1⟩ : CounterState) = ⟨0 % UINT32_MOD, some n1⟩ := by simp
    rw [e, runCounter_incs, Nat.zero_add]
    congr 1
    exact Nat.mod_eq_of_lt h3
  unfold drainTrace
  rw [runCounter_append, runCounter_append, runCounter_append, runCounter_append,
    s1v, s2, s3, s4, s5]

/-- C1, witness: the amended drain theorem evaluated at n1 = 2, n2 = 1,
n3 = 3. -/
theorem C1_witness :
    (2 : Nat) < UINT32_MOD ∧ (3 : Nat) < UINT32_MOD ∧
    runCounter initCounter (drainTrace 2 1 3) = ⟨3, some 2⟩ :=
  ⟨by decide, by decide, C1_drain 2 1 3 (by decide) (by decide)⟩

/-- C2, counterexample: the claim says the computed rate equals
c * 60000 / w for every non-negative c.  The product counts * MINUTE_PERIOD
is computed in 32-bit unsigned long and wraps: at c = 71583 and w = 60000 the
code computes 0 while c * 60000 / w = 71583. -/
theorem C2_counterexample :
    rateCPM 71583 60000 = 0 ∧ 71583 * 60000 / 60000 = 71583 := by decide

/-- C2, amended: whenever the product c * 60000 fits in 32 bits, the computed
rate equals c * 60000 / w with truncating division, and the rate of a zero
count is 0 for every positive window length. -/
theorem C2_rate (c w : Nat) (hc : c * MINUTE_PERIOD < UINT32_MOD) (_hw : 0 < w) :
    rateCPM c w = c * 60000 / w ∧ rateCPM 0 w = 0 := by
  constructor
  · unfold rateCPM
    rw [Nat.mod_eq_of_lt hc]
    rfl
  · unfold rateCPM
    simp

/-- C2, witness: the amended rate theorem at c = 123, w = 60000 gives the
end-to-end scenario value 123. -/
theorem C2_witness :
    123 * MINUTE_PERIOD < UINT32_MOD ∧ (0 : Nat) < 60000 ∧ rateCPM 123 60000 = 123 :=
  ⟨by decide, by decide, ((C2_rate 123 60000 (by decide) (by decide)).1).trans (by decide)⟩

/-- C3, counterexample: the claim says the forced re-arm fires exactly when
the latest sample and the previous history head are both zero, and exactly
once per continuing stall.  In the source the fresh cpm is pushed into the
history before checkInterrupt runs, so the check compares cpm with itself:
three consecutive zero periods signal three re-arms (not one), and a zero
period signals a re-arm even when the previous history head was 5. -/
theorem C3_counterexample :
    (runPeriods (List.replicate 60 0) [0, 0, 0]).2 = 3 ∧
    (periodStep (5 :: List.replicate 59 0) 0).2 = true := by decide

/-- C3, amended: a re-arm is signalled on every period whose cpm is zero
(every stalled period, from the first one on, regardless of the previous
history head), and for cpm below 2^31 a period signals a re-arm exactly when
its cpm is zero. -/
theorem C3_checkInterrupt (hist : List Nat) (k : Nat) (cpm : Nat) (h : cpm < 2 ^ 31) :
    (runPeriods hist (List.replicate k 0)).2 = k ∧
    ((periodStep hist cpm).2 = true ↔ cpm = 0) := by
  constructor
  · induction k generalizing hist with
    | zero => simp [runPeriods]
    | succ m ih =>
      simp only [List.replicate_succ, runPeriods]
      have hfire : (periodStep hist 0).2 = true := by
        simp [periodStep, checkInterrupt, pushCPMValueToArray]
      rw [hfire]
      simp [ih]
      omega
  · simp only [periodStep, checkInterrupt, pushCPMValueToArray, List.headD_cons,
      beq_iff_eq]
    have hM : UINT32_MOD = 4294967296 := by norm_num [UINT32_MOD]
    have h31 : (2 : Nat) ^ 31 = 2147483648 := by norm_num
    rw [hM]
    rw [h31] at h
    omega

/-- C3, witness: the amended theorem applied with history head 5 and two zero
periods: two re-arms are signalled. -/
theorem C3_witness :
    (0 : Nat) < 2 ^ 31 ∧ (runPeriods [5] (List.replicate 2 0)).2 = 2 :=
  ⟨by decide, (C3_checkInterrupt [5] 2 0 (by decide)).1⟩

/-- C4: the alert dispatch decision fires exactly when the rate strictly
exceeds the threshold; in particular it does not fire at the threshold itself
and does fire one above it. -/
theorem C4_alert (cpm threshold : Nat) :
    (alertFires cpm threshold = true ↔ threshold < cpm) ∧
    alertFires threshold threshold = false ∧
    alertFires (threshold + 1) threshold = true := by
  refine ⟨?_, ?_, ?_⟩ <;> simp [alertFires]

/-- Dropping the last element does not change the entries below the last
index. -/
theorem getD_dropLast (l : List Nat) :
    ∀ i : Nat, i + 1 < l.length → l.dropLast.getD i 0 = l.getD i 0 := by
  induction l with
  | nil => intro i h; simp at h
  | cons a t ih =>
    intro i h
    cases t with
    | nil => simp at h
    | cons b u =>
      cases i with
      | zero => simp
      | succ j =>
        have hj : j + 1 < (b :: u).length := by
          simpa using h
        simpa using ih j hj

/-- C5: push writes the new value at index 0, shifts every stored element one
position toward the tail, discards the last element (the length of a
non-empty buffer is preserved); pushing 10,20,30,40,50,60 into the zeroed
capacity-5 buffer leaves [60,50,40,30,20], whose simple mean is 40. -/
theorem C5_push :
    (∀ (buf : List Nat) (cpm : Nat), (pushCPMValueToArray buf cpm).getD 0 0 = cpm) ∧
    (∀ (buf : List Nat) (cpm i : Nat), i + 1 < buf.length →
      (pushCPMValueToArray buf cpm).getD (i + 1) 0 = buf.getD i 0) ∧
    (∀ (buf : List Nat) (cpm : Nat), buf ≠ [] →
      (pushCPMValueToArray buf cpm).length = buf.length) ∧
    List.foldl pushCPMValueToArray (List.replicate 5 0) [10, 20, 30, 40, 50, 60] =
      [60, 50, 40, 30, 20] ∧
    calcRunningAverage [60, 50, 40, 30, 20] = 40 := by
  refine ⟨?_, ?_, ?_, by decide, by decide⟩
  · intro buf cpm
    simp [pushCPMValueToArray]
  · intro buf cpm i h
    simp only [pushCPMValueToArray, List.getD_cons_succ]
    exact getD_dropLast buf i h
  · intro buf cpm hne
    have : 0 < buf.length := List.length_pos.2 hne
    simp [pushCPMValueToArray]
    omega

/-- C5, witness: the shift and length parts of the push theorem evaluated on
the concrete buffer [1, 2, 3]. -/
theorem C5_witness :
    (pushCPMValueToArray [1, 2, 3] 9).getD 1 0 = 1 ∧
    (pushCPMValueToArray [1, 2, 3] 9).length = 3 :=
  ⟨(C5_push.2.1 [1, 2, 3] 9 0 (by decide)).trans (by decide),
    C5_push.2.2.1 [1, 2, 3] 9 (by decide)⟩

/-- Folding with the wrapping addition from a reduced seed equals the plain
sum reduced modulo 2^32. -/
theorem foldl_add_mod (l : List Nat) :
    ∀ s : Nat, l.foldl (fun a v => (a + v) % UINT32_MOD) (s % UINT32_MOD) =
      l.foldl (· + ·) s % UINT32_MOD := by
  induction l with
  | nil => intro s; rfl
  | cons v t ih =>
    intro s
    simp only [List.foldl_cons]
    rw [Nat.mod_add_mod]
    exact ih (s + v)

/-- Zero entries contribute nothing to the sum, so summing all entries equals
summing the positive ones. -/
theorem foldl_add_filter_pos (l : List Nat) :
    ∀ s : Nat, (l.filter (fun v => decide (0 < v))).foldl (· + ·) s = l.foldl (· + ·) s := by
  induction l with
  | nil => intro s; rfl
  | cons v t ih =>
    intro s
    by_cases hv : 0 < v
    · rw [List.filter_cons, if_pos (by simpa using hv)]
      simp only [List.foldl_cons]
      exact ih (s + v)
    · rw [List.filter_cons, if_neg (by simpa using hv)]
      have hv0 : v = 0 := by omega
      simp only [List.foldl_cons, hv0, Nat.add_zero]
      exact ih s

/-- C6, counterexample: the claim says the simple mean equals the sum of the
non-zero entries divided by their count for every buffer state.  The sum is
accumulated in 32-bit unsigned long and wraps: on the buffer holding two
entries of 2^31 the code returns 0, while the claimed value is
(2^31 + 2^31) / 2 = 2^31. -/
theorem C6_counterexample :
    calcRunningAverage [2 ^ 31, 2 ^ 31] = 0 ∧ (2 ^ 31 + 2 ^ 31) / 2 = 2 ^ 31 := by decide

/-- C6, amended: whenever the sum of the stored values fits in 32 bits (true
of every buffer the sampler can produce), the simple mean equals the sum of
the non-zero stored values divided, with truncation, by the count of non-zero
stored values, and it is 0 when every stored value is zero, the
division-by-zero branch never being reached. -/
theorem C6_average (buf : List Nat) (h : buf.foldl (· + ·) 0 < UINT32_MOD) :
    calcRunningAverage buf =
      (buf.filter (fun v => decide (0 < v))).foldl (· + ·) 0 /
        (buf.filter (fun v => decide (0 < v))).length ∧
    ((∀ v ∈ buf, v = 0) → calcRunningAverage buf = 0) := by
  have hsum : buf.foldl (fun a v => (a + v) % UINT32_MOD) 0 =
      (buf.filter (fun v => decide (0 < v))).foldl (· + ·) 0 := by
    have e1 : buf.foldl (fun a v => (a + v) % UINT32_MOD) 0 =
        buf.foldl (fun a v => (a + v) % UINT32_MOD) (0 % UINT32_MOD) := by
      rw [Nat.zero_mod]
    rw [e1, foldl_add_mod, Nat.mod_eq_of_lt h]
    exact (foldl_add_filter_pos buf 0).symm
  constructor
  · simp only [calcRunningAverage, calcAverage]
    by_cases hc : (buf.filter (fun v => decide (0 < v))).length = 0
    · rw [if_pos hc]
      have hnil : buf.filter (fun v => decide (0 < v)) = [] := List.length_eq_zero.1 hc
      rw [hnil]
      simp
    · rw [if_neg hc, hsum]
  · intro hall
    simp only [calcRunningAverage, calcAverage]
    have hnil : buf.filter (fun v => decide (0 < v)) = [] := by
      apply List.filter_eq_nil_iff.2
      intro a ha
      simp [hall a ha]
    rw [hnil]
    simp

/-- C6, witness: the amended mean theorem on [60, 0, 30] gives
(60 + 30) / 2 = 45, the zero entry being excluded from the count. -/
theorem C6_witness :
    [60, 0, 30].foldl (· + ·) 0 < UINT32_MOD ∧ calcRunningAverage [60, 0, 30] = 45 :=
  ⟨by decide, ((C6_average [60, 0, 30] (by decide)).1).trans (by decide)⟩

/-- C7: the weighted averager satisfies the recurrence
new = weight * current + (1 - weight) * previous (modelled over exact
rationals); it is a fixed point when the raw value equals the previous value
for every weight strictly between 0 and 1, and at weight 0.8, previous 100,
raw 200 it returns 180. -/
theorem C7_weightedMean :
    (∀ (v : Nat) (w : ℚ), 0 < w → w < 1 → calcWeightedAverageFilter v w v = v) ∧
    calcWeightedAverageFilter 200 (4 / 5) 100 = 180 := by
  constructor
  · intro v w _ _
    unfold calcWeightedAverageFilter
    have h : w * (v : ℚ) + (1 - w) * (v : ℚ) = (v : ℚ) := by ring
    rw [h, Int.floor_natCast, Int.toNat_natCast]
  · unfold calcWeightedAverageFilter
    norm_num
    rfl

/-- C7, witness: the fixed point theorem evaluated at value 7 and weight
1/2. -/
theorem C7_witness :
    (0 : ℚ) < 1 / 2 ∧ (1 / 2 : ℚ) < 1 ∧ calcWeightedAverageFilter 7 (1 / 2) 7 = 7 :=
  ⟨by norm_num, by norm_num, C7_weightedMean.1 7 (1 / 2) (by norm_num) (by norm_num)⟩

/-- C8, counterexample: the claim says a weight outside (0,1) is rejected at
initialization rather than the averager silently running with it.  Nothing in
setup validates the weight: the averager is total and silently computes with
weight 2, returning the ordinary value 2 * 200 + (1 - 2) * 100 = 300. -/
theorem C8_counterexample :
    calcWeightedAverageFilter 200 2 100 = 300 := by
  unfold calcWeightedAverageFilter
  norm_num
  rfl

/-- C8, amended: no startup validation of the filter weight exists; the only
weight the firmware ever passes is the compile-time constant
WEIGHT_AVERAGE = 0.8, which does lie strictly between 0 and 1, and the
averager silently computes with any other weight as well (weight 3/2 on raw
200, previous 100 yields 250 instead of any rejection). -/
theorem C8_noValidation :
    (0 < WEIGHT_AVERAGE ∧ WEIGHT_AVERAGE < 1) ∧
    calcWeightedAverageFilter 200 (3 / 2) 100 = 250 := by
  refine ⟨⟨by norm_num [WEIGHT_AVERAGE], by norm_num [WEIGHT_AVERAGE]⟩, ?_⟩
  unfold calcWeightedAverageFilter
  norm_num
  rfl

/-- Invariant proof for the readLine loop: starting at a write index of at
most 49 with every already-written cell at least 32, the loop never modifies
a cell at or beyond STRING_BUFFER_SIZE, and on returning true the final
buffer holds a NUL at some index n with 0 < n <= 49 and cells of value at
least 32 everywhere below n. -/
theorem readLineGo_spec (stream : List Int) :
    ∀ (index : Nat) (buf : Nat → Int),
      index ≤ STRING_BUFFER_SIZE - 1 →
      (∀ i, i < index → 32 ≤ buf i) →
      (∀ i, STRING_BUFFER_SIZE ≤ i → (readLineGo buf index stream).2 i = buf i) ∧
      ((readLineGo buf index stream).1 = true →
        ∃ n, 0 < n ∧ n ≤ STRING_BUFFER_SIZE - 1 ∧ (readLineGo buf index stream).2 n = 0 ∧
          ∀ i, i < n → 32 ≤ (readLineGo buf index stream).2 i) := by
  induction stream with
  | nil =>
    intro index buf hidx hchars
    constructor
    · intro i hi
      simp [readLineGo]
    · intro htrue
      simp [readLineGo] at htrue
  | cons c rest ih =>
    intro index buf hidx hchars
    by_cases h1 : 32 ≤ c ∧ index < STRING_BUFFER_SIZE - 1
    · rw [readLineGo, if_pos h1]
      have hidx2 : index + 1 ≤ STRING_BUFFER_SIZE - 1 := by omega
      have hchars2 : ∀ i, i < index + 1 → 32 ≤ Function.update buf index c i := by
        intro i hi
        by_cases hie : i = index
        · rw [hie, Function.update_same]
          exact h1.1
        · rw [Function.update_noteq hie]
          exact hchars i (by omega)
      have spec := ih (index + 1) (Function.update buf index c) hidx2 hchars2
      refine ⟨?_, spec.2⟩
      intro i hi
      rw [spec.1 i hi, Function.update_noteq]
      have : STRING_BUFFER_SIZE = 50 := by norm_num [STRING_BUFFER_SIZE]
      omega
    · rw [readLineGo, if_neg h1]
      by_cases h2 : c = 10 ∧ 0 < index
      · rw [if_pos h2]
        constructor
        · intro i hi
          show Function.update buf index 0 i = buf i
          have hS : STRING_BUFFER_SIZE = 50 := by norm_num [STRING_BUFFER_SIZE]
          have hne : i ≠ index := by omega
          rw [Function.update_noteq hne]
        · intro _
          refine ⟨index, h2.2, hidx, ?_, ?_⟩
          · show Function.update buf index 0 index = 0
            exact Function.update_same index 0 buf
          · intro i hi
            show 32 ≤ Function.update buf index 0 i
            have hne : i ≠ index := by omega
            rw [Function.update_noteq hne]
            exact hchars i hi
      · rw [if_neg h2]
        exact ih index buf hidx hchars

/-- C9: readLine never writes at or beyond index STRING_BUFFER_SIZE = 50 of
the caller buffer; when it returns true the buffer holds a NUL-terminated
string of length at most 49 whose characters all have code at least 32; and
when it returns false no command is dispatched. -/
theorem C9_readLine (stream : List Int) (buf : Nat → Int) :
    (∀ i, STRING_BUFFER_SIZE ≤ i → (readLine buf stream).2 i = buf i) ∧
    ((readLine buf stream).1 = true →
      ∃ n, 0 < n ∧ n ≤ STRING_BUFFER_SIZE - 1 ∧ (readLine buf stream).2 n = 0 ∧
        ∀ i, i < n → 32 ≤ (readLine buf stream).2 i) ∧
    ((readLine buf stream).1 = false → handleCommandsDispatches buf stream = false) := by
  have spec := readLineGo_spec stream 0 buf (by norm_num [STRING_BUFFER_SIZE]) (by omega)
  refine ⟨spec.1, spec.2, ?_⟩
  intro hfalse
  simp [handleCommandsDispatches, hfalse]

/-- C9, witness: the readLine theorem on the stream h, i, newline, which
returns true with the two-character string. -/
theorem C9_witness :
    (readLine (fun _ => 0) [104, 105, 10]).1 = true ∧
    ∃ n, 0 < n ∧ n ≤ STRING_BUFFER_SIZE - 1 ∧
      (readLine (fun _ => 0) [104, 105, 10]).2 n = 0 ∧
      ∀ i, i < n → 32 ≤ (readLine (fun _ => 0) [104, 105, 10]).2 i :=
  ⟨by decide, (C9_readLine [104, 105, 10] (fun _ => 0)).2.1 (by decide)⟩

/-- C10: the published weighted average is the integer floor of the rational
value weight * raw + (1 - weight) * last (so it is always an integer), and
for every weight strictly between 0 and 1 it lies between the minimum and the
maximum of the raw and previous values, inclusive. -/
theorem C10_weightedBounds (rawValue lastValue : Nat) (w : ℚ) (h0 : 0 < w) (h1 : w < 1) :
    ((calcWeightedAverageFilter rawValue w lastValue : ℤ) =
      Int.floor (w * (rawValue : ℚ) + (1 - w) * (lastValue : ℚ))) ∧
    min rawValue lastValue ≤ calcWeightedAverageFilter rawValue w lastValue ∧
    calcWeightedAverageFilter rawValue w lastValue ≤ max rawValue lastValue := by
  have hr : ((min rawValue lastValue : ℕ) : ℚ) ≤ (rawValue : ℚ) := by
    exact_mod_cast Nat.min_le_left rawValue lastValue
  have hl : ((min rawValue lastValue : ℕ) : ℚ) ≤ (lastValue : ℚ) := by
    exact_mod_cast Nat.min_le_right rawValue lastValue
  have hr2 : (rawValue : ℚ) ≤ ((max rawValue lastValue : ℕ) : ℚ) := by
    exact_mod_cast Nat.le_max_left rawValue lastValue
  have hl2 : (lastValue : ℚ) ≤ ((max rawValue lastValue : ℕ) : ℚ) := by
    exact_mod_cast Nat.le_max_right rawValue lastValue
  have hmin : ((min rawValue lastValue : ℕ) : ℚ) ≤
      w * (rawValue : ℚ) + (1 - w) * (lastValue : ℚ) := by
    nlinarith [mul_nonneg h0.le (sub_nonneg.2 hr),
      mul_nonneg (sub_nonneg.2 h1.le) (sub_nonneg.2 hl)]
  have hmax : w * (rawValue : ℚ) + (1 - w) * (lastValue : ℚ) ≤
      ((max rawValue lastValue : ℕ) : ℚ) := by
    nlinarith [mul_nonneg h0.le (sub_nonneg.2 hr2),
      mul_nonneg (sub_nonneg.2 h1.le) (sub_nonneg.2 hl2)]
  have hfmin : ((min rawValue lastValue : ℕ) : ℤ) ≤
      Int.floor (w * (rawValue : ℚ) + (1 - w) * (lastValue : ℚ)) := by
    rw [Int.le_floor]
    exact_mod_cast hmin
  have hfmax : Int.floor (w * (rawValue : ℚ) + (1 - w) * (lastValue : ℚ)) ≤
      ((max rawValue lastValue : ℕ) : ℤ) := by
    have hmono := Int.floor_le_floor hmax
    rwa [Int.floor_natCast] at hmono
  have hnn : (0 : ℤ) ≤ Int.floor (w * (rawValue : ℚ) + (1 - w) * (lastValue : ℚ)) :=
    le_trans (by positivity) hfmin
  refine ⟨Int.toNat_of_nonneg hnn, ?_, Int.toNat_le.2 hfmax⟩
  have hmono := Int.toNat_le_toNat hfmin
  rwa [Int.toNat_natCast] at hmono

/-- C10, witness: the bounds theorem at raw 200, last 100, weight 4/5. -/
theorem C10_witness :
    (0 : ℚ) < 4 / 5 ∧ (4 / 5 : ℚ) < 1 ∧
    min 200 100 ≤ calcWeightedAverageFilter 200 (4 / 5) 100 ∧
    calcWeightedAverageFilter 200 (4 / 5) 100 ≤ max 200 100 :=
  ⟨by norm_num, by norm_num,
    (C10_weightedBounds 200 100 (4 / 5) (by norm_num) (by norm_num)).2⟩
